import Mathlib

/-!
Verification development for the sandboxed code execution engine
(`executeFunction` and its variable-resolution passes).

The TypeScript source is shallowly embedded:
  * JavaScript runtime values are modelled by `JSValue` (numbers as `Int`;
    the engine's observable behaviour on the properties below never depends
    on non-integral numbers),
  * records (`Record<string, any>`) are association lists,
  * the mutable `contextVariables` record is an explicit binding map,
  * the three regex scans are modelled by faithful leftmost, non-overlapping
    scanners over character lists,
  * `String.prototype.replace(new RegExp(escapeRegExp(m), 'g'), r)` is a
    literal global replacement, modelled by `replaceAllS`.
-/

/-- A JavaScript runtime value (JSON-style fragment; numbers as integers). -/
inductive JSValue where
  | undef : JSValue
  | null : JSValue
  | nan : JSValue
  | bool (b : Bool) : JSValue
  | num (n : Int) : JSValue
  | str (s : String) : JSValue
  | obj (fields : List (String × JSValue)) : JSValue
  | arr (elems : List JSValue) : JSValue

/-- JavaScript truthiness: `undefined`, `null`, `NaN`, `false`, `0` and `""`
are falsy; everything else (including `{}` and `[]`) is truthy. -/
def truthy : JSValue → Bool
  | .undef => false
  | .null => false
  | .nan => false
  | .bool b => b
  | .num n => n != 0
  | .str s => s != ""
  | .obj _ => true
  | .arr _ => true

/-- `a || b` on JavaScript values. -/
def jsOr (a b : JSValue) : JSValue := if truthy a then a else b

/-- The character class of JavaScript `\s` (ASCII part). -/
def isJsSpace (c : Char) : Bool :=
  c = ' ' || c = '\t' || c = '\n' || c = '\x0d' || c = '\x0b' || c = '\x0c'

/-- `[a-zA-Z0-9_]`. -/
def isWordChar (c : Char) : Bool := c.isAlpha || c.isDigit || c = '_'

/-- `[a-zA-Z_]`. -/
def isIdStart (c : Char) : Bool := c.isAlpha || c = '_'

/-- `[a-zA-Z0-9_.]`. -/
def isIdMid (c : Char) : Bool := isWordChar c || c = '.'

/-- Models `String.prototype.trim` (ASCII whitespace). -/
def jsTrim (s : String) : String :=
  String.mk (((s.data.dropWhile isJsSpace).reverse.dropWhile isJsSpace).reverse)

/-- Models `name.replace(/\s+/g, '')`: delete every whitespace character. -/
def stripWs (s : String) : String :=
  String.mk (s.data.filter (fun c => !(isJsSpace c)))

/-- Models `ref.replace(/[^a-zA-Z0-9_]/g, '_')`: the identifier sanitizer. -/
def sanitizeIdent (s : String) : String :=
  String.mk (s.data.map (fun c => if isWordChar c then c else '_'))

/-- Models `String.prototype.toLowerCase` (ASCII). -/
def lowerS (s : String) : String := String.mk (s.data.map Char.toLower)

/-- Association-list lookup for a `Record<string, string>`. -/
def lookupStr (l : List (String × String)) (k : String) : Option String :=
  (l.find? (fun p => p.1 == k)).map (fun p => p.2)

/-- Property read `r[k]` on a `Record<string, any>`: `undefined` when absent. -/
def recordGet (l : List (String × JSValue)) (k : String) : JSValue :=
  match l.find? (fun p => p.1 == k) with
  | some p => p.2
  | none => ( .undef)

/-- Property write `r[k] = v` on a `Record<string, any>` (update in place,
append when the key is new — JavaScript objects keep insertion order). -/
def recordSet : List (String × JSValue) → String → JSValue → List (String × JSValue)
  | [], k, v => [(k, v)]
  | p :: rest, k, v => if p.1 = k then (k, v) :: rest else p :: recordSet rest k v

/-- Property read on an arbitrary value, as JavaScript `current[key]` does for
values that passed the `typeof current === 'object'` test. -/
def jsGet : JSValue → String → JSValue
  | .obj fields, k => recordGet fields k
  | .arr xs, k =>
      if k = "length" then .num xs.length
      else
        match k.toNat? with
        | some i => if h : i < xs.length then xs.get ⟨i, h⟩ else ( .undef)
        | none => ( .undef)
  | _, _ => ( .undef)

/-- `typeof v === 'string'`. -/
def isStr : JSValue → Bool
  | .str _ => true
  | _ => false

/-- `typeof v === 'object'` (true for objects, arrays and `null`). -/
def typeofIsObject : JSValue → Bool
  | .obj _ => true
  | .arr _ => true
  | .null => true
  | _ => false

/-- Models `String.prototype.split` with a one-character separator. -/
def consHead (c : Char) : List (List Char) → List (List Char)
  | [] => [[c]]
  | p :: ps => (c :: p) :: ps

def splitOnCharL (sep : Char) : List Char → List (List Char)
  | [] => [[]]
  | c :: cs => if c = sep then [] :: splitOnCharL sep cs else consHead c (splitOnCharL sep cs)

def splitOnCharS (sep : Char) (s : String) : List String :=
  (splitOnCharL sep s.data).map String.mk

/-- Source `getNestedValue`: dotted-path traversal with
`current && typeof current === 'object' ? current[key] : undefined`. -/
def getNestedValue (obj : JSValue) (path : String) : JSValue :=
  if !truthy obj || path = "" then ( .undef)
  else
    (splitOnCharS '.' path).foldl
      (fun current key =>
        if truthy current && typeofIsObject current then jsGet current key else .undef)
      obj

/-! ### Literal global replacement and the match scanners

`resolvedCode.replace(new RegExp(escapeRegExp(m), 'g'), r)` replaces every
occurrence of the literal text `m`, scanning left to right without overlap.
`splitFuel` computes the corresponding decomposition of the subject into the
maximal kept runs between matches; `replaceFuel` is the replacement itself.
Both recurse on an explicit fuel (initially the subject length) so that they
evaluate by kernel reduction. -/

/-- Literal prefix test (the effect of `escapeRegExp` before matching). -/
def isPreL : List Char → List Char → Bool
  | [], _ => true
  | _ :: _, [] => false
  | a :: as, b :: bs => a == b && isPreL as bs

def splitFuel (t0 : Char) (ts : List Char) : Nat → List Char → List (List Char)
  | _, [] => [[]]
  | 0, cs => [cs]
  | fuel + 1, c :: cs =>
      if isPreL (t0 :: ts) (c :: cs) then
        [] :: splitFuel t0 ts fuel (cs.drop ts.length)
      else
        consHead c (splitFuel t0 ts fuel cs)

def replaceFuel (t0 : Char) (ts r : List Char) : Nat → List Char → List Char
  | _, [] => []
  | 0, cs => cs
  | fuel + 1, c :: cs =>
      if isPreL (t0 :: ts) (c :: cs) then
        r ++ replaceFuel t0 ts r fuel (cs.drop ts.length)
      else
        c :: replaceFuel t0 ts r fuel cs

/-- Join a list of parts with a separator (inverse of the split above). -/
def joinWithL (sep : List Char) : List (List Char) → List Char
  | [] => []
  | [p] => p
  | p :: ps => p ++ sep ++ joinWithL sep ps

/-- All-occurrence literal replacement on strings (the model of
`s.replace(new RegExp(escapeRegExp(t), 'g'), r)`; the replacement strings
used by the engine contain no `$` pattern, so they are literal). -/
def replaceAllS (s t r : String) : String :=
  match t.data with
  | [] => s
  | t0 :: ts => String.mk (replaceFuel t0 ts r.data s.data.length s.data)

/-- The decomposition of `s` into the kept runs between occurrences of `t`. -/
def splitFullS (t s : String) : List String :=
  match t.data with
  | [] => [s]
  | t0 :: ts => (splitFuel t0 ts s.data.length s.data).map String.mk

/-- Join string parts with a separator string. -/
def joinWithS (sep : String) (parts : List String) : String :=
  String.mk (joinWithL sep.data (parts.map String.data))

/-- Generic leftmost non-overlapping scanner: at each position either the
pattern recognizer fires, consuming the match, or the scan advances one
character (the semantics of `String.prototype.match` with a `g` regex). -/
def scanAux (try1 : List Char → Option (String × List Char)) :
    Nat → List Char → List String
  | 0, _ => []
  | _, [] => []
  | fuel + 1, c :: cs =>
      match try1 (c :: cs) with
      | some (m, after) => m :: scanAux try1 fuel after
      | none => scanAux try1 fuel cs

/-- Literal prefix test returning the remainder on success. -/
def dropPreL (t cs : List Char) : Option (List Char) :=
  if isPreL t cs then some (cs.drop t.length) else none

/-- Recognizer for `/<variable\.([^>]+)>/` at the current position. -/
def tryVarRef (cs : List Char) : Option (String × List Char) :=
  match dropPreL "<variable.".data cs with
  | none => none
  | some rest =>
      match rest.takeWhile (fun c => !(c = '>')), rest.dropWhile (fun c => !(c = '>')) with
      | [], _ => none
      | body@(_ :: _), '>' :: after =>
          some (String.mk ("<variable.".data ++ (body ++ ['>'])), after)
      | _ :: _, _ => none

/-- Matches of `/<variable\.([^>]+)>/g` in order. -/
def scanVarRefs (s : String) : List String := scanAux tryVarRef s.data.length s.data

/-- Recognizer for `/\x7b\x7b([^\x7d]+)\x7d\x7d/` at the current position. -/
def tryEnvRef (cs : List Char) : Option (String × List Char) :=
  match dropPreL "\x7b\x7b".data cs with
  | none => none
  | some rest =>
      match rest.takeWhile (fun c => !(c = '\x7d')), rest.dropWhile (fun c => !(c = '\x7d')) with
      | [], _ => none
      | body@(_ :: _), '\x7d' :: '\x7d' :: after =>
          some (String.mk ("\x7b\x7b".data ++ (body ++ ['\x7d', '\x7d'])), after)
      | _ :: _, _ => none

/-- Matches of the template-reference regex, in order. -/
def scanEnvRefs (s : String) : List String := scanAux tryEnvRef s.data.length s.data

/-- Recognizer for `/<([a-zA-Z_][a-zA-Z0-9_.]*[a-zA-Z0-9_])>/` at the current
position.  The middle class is a superset of the final class, so the regex
matches exactly when the maximal identifier run after `<` has length at least
two, ends in a non-dot character and is followed by `>`. -/
def tryTagRef (cs : List Char) : Option (String × List Char) :=
  match cs with
  | '<' :: c1 :: rest =>
      if isIdStart c1 then
        let run := c1 :: rest.takeWhile isIdMid
        match rest.dropWhile isIdMid with
        | '>' :: after =>
            if 2 ≤ run.length && isWordChar (run.getLastD '_') then
              some (String.mk ('<' :: (run ++ ['>'])), after)
            else none
        | _ => none
      else none
  | _ => none

/-- Matches of the tag-reference regex, in order. -/
def scanTagRefs (s : String) : List String := scanAux tryTagRef s.data.length s.data

/-! ### Value coercion helpers -/

/-- Digits of a decimal natural number. -/
def digitsToNat (ds : List Char) : Nat :=
  ds.foldl (fun n c => n * 10 + (c.toNat - 48)) 0

/-- Decimal integer parse used by the numeric coercions: optional sign then
one or more digits (non-integral numerals are outside the modelled fragment). -/
def parseIntL (cs : List Char) : Option Int :=
  match cs with
  | '-' :: ds => if ds ≠ [] && ds.all Char.isDigit then some (-(digitsToNat ds : Int)) else none
  | '+' :: ds => if ds ≠ [] && ds.all Char.isDigit then some (digitsToNat ds : Int) else none
  | ds => if ds ≠ [] && ds.all Char.isDigit then some (digitsToNat ds : Int) else none

/-- JavaScript `Number(v)` on the modelled fragment (string numerals are
integers; object/array `toPrimitive` chains are collapsed to `NaN`). -/
def jsToNumber : JSValue → JSValue
  | .undef => .nan
  | .null => .num 0
  | .nan => .nan
  | .bool b => .num (if b then 1 else 0)
  | .num n => .num n
  | .str s =>
      let t := (s.data.dropWhile isJsSpace).reverse.dropWhile isJsSpace |>.reverse
      if t = [] then .num 0
      else
        match parseIntL t with
        | some n => .num n
        | none => .nan
  | .obj _ => .nan
  | .arr _ => .nan

/-- `v === 'true' || v === true` (strict equality against the two literals). -/
def jsIsTrueLiteral : JSValue → Bool
  | .str s => s == "true"
  | .bool b => b
  | _ => false

/-- JavaScript `String(v)` on the modelled fragment. -/
def jsToString : JSValue → String
  | .undef => "undefined"
  | .null => "null"
  | .nan => "NaN"
  | .bool b => if b then "true" else "false"
  | .num n => toString n
  | .str s => s
  | .obj _ => "[object Object]"
  | .arr _ => ""

/-! ### A model of `JSON.parse` / `JSON.stringify`

Only the JSON fragment the engine can observe is modelled: `null`, booleans,
integer numerals, strings without escape sequences, arrays and objects.  The
parser is fuel-based so that it evaluates by kernel reduction. -/

def skipJsonWs (cs : List Char) : List Char :=
  cs.dropWhile (fun c => c = ' ' || c = '\t' || c = '\n' || c = '\x0d')

def parseJsonStringBody (cs : List Char) : Option (String × List Char) :=
  let body := cs.takeWhile (fun c => !(c = '"' || c = '\\'))
  match cs.dropWhile (fun c => !(c = '"' || c = '\\')) with
  | '"' :: after => some (String.mk body, after)
  | _ => none

mutual

def parseJsonValue : Nat → List Char → Option (JSValue × List Char)
  | 0, _ => none
  | fuel + 1, cs0 =>
      let cs := skipJsonWs cs0
      match cs with
      | '"' :: rest =>
          match parseJsonStringBody rest with
          | some (s, after) => some (.str s, after)
          | none => none
      | '[' :: rest =>
          match skipJsonWs rest with
          | ']' :: after => some (.arr [], after)
          | rest2 => match parseJsonElems fuel rest2 with
                     | some (xs, after) => some (.arr xs, after)
                     | none => none
      | '\x7b' :: rest =>
          match skipJsonWs rest with
          | '\x7d' :: after => some (.obj [], after)
          | rest2 => match parseJsonFields fuel rest2 with
                     | some (fs, after) => some (.obj fs, after)
                     | none => none
      | _ =>
          match dropPreL "null".data cs with
          | some after => some (.null, after)
          | none =>
          match dropPreL "true".data cs with
          | some after => some (.bool true, after)
          | none =>
          match dropPreL "false".data cs with
          | some after => some (.bool false, after)
          | none =>
              let sign := if cs.headD ' ' = '-' then 1 else 0
              let ds := (cs.drop sign).takeWhile Char.isDigit
              if ds = [] then none
              else
                let n : Int := if sign = 1 then -(digitsToNat ds : Int) else (digitsToNat ds : Int)
                some (.num n, (cs.drop sign).dropWhile Char.isDigit)

def parseJsonElems : Nat → List Char → Option (List JSValue × List Char)
  | 0, _ => none
  | fuel + 1, cs =>
      match parseJsonValue fuel cs with
      | none => none
      | some (v, after) =>
          match skipJsonWs after with
          | ',' :: rest =>
              match parseJsonElems fuel rest with
              | some (xs, after2) => some (v :: xs, after2)
              | none => none
          | ']' :: rest => some ([v], rest)
          | _ => none

def parseJsonFields : Nat → List Char → Option (List (String × JSValue) × List Char)
  | 0, _ => none
  | fuel + 1, cs =>
      match skipJsonWs cs with
      | '"' :: rest =>
          match parseJsonStringBody rest with
          | none => none
          | some (k, after) =>
              match skipJsonWs after with
              | ':' :: rest2 =>
                  match parseJsonValue fuel rest2 with
                  | none => none
                  | some (v, after2) =>
                      match skipJsonWs after2 with
                      | ',' :: rest3 =>
                          match parseJsonFields fuel rest3 with
                          | some (fs, after3) => some ((k, v) :: fs, after3)
                          | none => none
                      | '\x7d' :: rest3 => some ([(k, v)], rest3)
                      | _ => none
              | _ => none
      | _ => none

end

/-- `JSON.parse` on the modelled fragment: `none` when parsing fails. -/
def jsonParse (s : String) : Option JSValue :=
  match parseJsonValue (s.data.length + 1) s.data with
  | some (v, after) => if skipJsonWs after = [] then some v else none
  | none => none

/-- `JSON.stringify(v, null, 2)` on the modelled fragment (pretty printing
with two-space indentation; `undefined` object fields are omitted and
`undefined` array elements print as `null`, as in JavaScript). -/
def isUndef : JSValue → Bool
  | .undef => true
  | _ => false

def jsonQuote (s : String) : String := "\"" ++ s ++ "\""

def jsonStringifyFuel : Nat → Nat → JSValue → String
  | 0, _, _ => ""
  | _ + 1, _, .undef => ""
  | _ + 1, _, .null => "null"
  | _ + 1, _, .nan => "null"
  | _ + 1, _, .bool b => if b then "true" else "false"
  | _ + 1, _, .num n => toString n
  | _ + 1, _, .str s => jsonQuote s
  | fuel + 1, ind, .arr xs =>
      match xs with
      | [] => "[]"
      | _ =>
          let pad := String.mk (List.replicate (ind + 2) ' ')
          let items := xs.map (fun x =>
            pad ++ (if isUndef x then "null" else jsonStringifyFuel fuel (ind + 2) x))
          "[\n" ++ joinWithS ",\n" items ++ "\n" ++ String.mk (List.replicate ind ' ') ++ "]"
  | fuel + 1, ind, .obj fs =>
      match fs.filter (fun p => !(isUndef p.2)) with
      | [] => "\x7b\x7d"
      | fs' =>
          let pad := String.mk (List.replicate (ind + 2) ' ')
          let items := fs'.map (fun p =>
            pad ++ jsonQuote p.1 ++ ": " ++ jsonStringifyFuel fuel (ind + 2) p.2)
          "\x7b\n" ++ joinWithS ",\n" items ++ "\n" ++ String.mk (List.replicate ind ' ') ++ "\x7d"

/-! ### The variable resolver (source lines 66–208) -/

/-- The `contextVariables` record: a key is present iff it was assigned. -/
def Ctx := String → Option JSValue

def emptyCtx : Ctx := fun _ => none

/-- `contextVariables[k] = v`. -/
def ctxSet (c : Ctx) (k : String) (v : JSValue) : Ctx :=
  fun k' => if k' = k then some v else c k'

/-- One entry of `workflowVariables` (spec §3: `{name, type, value}`). -/
structure WorkflowVariable where
  name : String
  type : String
  value : JSValue

/-- Source lines 85–106: type coercion of a workflow variable's raw value.
Values `undefined` and `null` are not coerced at all (the guard on line 85). -/
def coerceVariableValue (ty : String) (v : JSValue) : JSValue :=
  match v with
  | .undef => .undef
  | .null => .null
  | v =>
      let t := if ty == "string" then "plain" else ty
      if t == "plain" && isStr v then v
      else if t == "number" then jsToNumber v
      else if t == "boolean" then .bool (jsIsTrueLiteral v)
      else if t == "json" then
        match v with
        | .str s => (jsonParse s).getD (.str s)
        | v => v
      else v

/-- `match.slice('<variable.'.length, -1).trim()`. -/
def varRefName (m : String) : String := jsTrim (String.mk ((m.data.drop 10).dropLast))

/-- The `Object.entries(workflowVariables).find(...)` lookup: first entry whose
whitespace-stripped `name` equals the reference name. -/
def wvFind (wv : List (String × WorkflowVariable)) (nm : String) :
    Option (String × WorkflowVariable) :=
  wv.find? (fun p => stripWs p.2.name == nm)

/-- The generated identifier for a workflow-variable reference. -/
def varSafeName (nm : String) : String := "__variable_" ++ sanitizeIdent nm

/-- The text each match is replaced with: the safe identifier when the
variable exists, the empty string otherwise (delete-on-miss). -/
def varReplFor (wv : List (String × WorkflowVariable)) (m : String) : String :=
  match wvFind wv (varRefName m) with
  | some _ => varSafeName (varRefName m)
  | none => ""

/-- The context assignment a match performs, if any. -/
def varBindingFor (wv : List (String × WorkflowVariable)) (m : String) :
    Option (String × JSValue) :=
  match wvFind wv (varRefName m) with
  | some found => some (varSafeName (varRefName m),
      coerceVariableValue found.2.type found.2.value)
  | none => none

/-- Source `resolveWorkflowVariables` (lines 66–117). -/
def resolveWorkflowVariables (code : String) (wv : List (String × WorkflowVariable))
    (ctx : Ctx) : String × Ctx :=
  (scanVarRefs code).foldl
    (fun acc m =>
      match wvFind wv (varRefName m) with
      | some found =>
          let value := coerceVariableValue found.2.type found.2.value
          let safe := varSafeName (varRefName m)
          (replaceAllS acc.1 m safe, ctxSet acc.2 safe value)
      | none => (replaceAllS acc.1 m "", acc.2))
    (code, ctx)

/-- `match.slice(2, -2).trim()`. -/
def envRefName (m : String) : String :=
  jsTrim (String.mk (((m.data.drop 2).dropLast).dropLast))

/-- `envVars[varName] || params[varName] || ''` (truthiness fallback). -/
def envValueFor (envVars : List (String × String)) (params : List (String × JSValue))
    (nm : String) : JSValue :=
  let envGet : JSValue := match lookupStr envVars nm with
    | some s => .str s
    | none => .undef
  jsOr envGet (jsOr (recordGet params nm) (.str ""))

/-- The generated identifier for a template/environment reference. -/
def envSafeName (nm : String) : String := "__var_" ++ sanitizeIdent nm

/-- Source `resolveEnvironmentVariables` (lines 122–141). -/
def resolveEnvironmentVariables (code : String) (params : List (String × JSValue))
    (envVars : List (String × String)) (ctx : Ctx) : String × Ctx :=
  (scanEnvRefs code).foldl
    (fun acc m =>
      let varName := envRefName m
      let varValue := envValueFor envVars params varName
      let safe := envSafeName varName
      (replaceAllS acc.1 m safe, ctxSet acc.2 safe varValue))
    (code, ctx)

/-- `match.slice(1, -1).trim()`. -/
def tagNameOf (m : String) : String := jsTrim (String.mk ((m.data.drop 1).dropLast))

/-- `tagName.includes('.')`. -/
def hasDot (s : String) : Bool := s.data.any (fun c => c = '.')

/-- The value a tag reference resolves to (source lines 160–171): direct
dotted-path lookups against `params` then `blockData`, with the block-name
fallback through `blockNameMapping` when those found nothing. -/
def tagResolvedValue (params blockData : List (String × JSValue))
    (bnm : List (String × String)) (tagName : String) : JSValue :=
  let tv0 := jsOr (getNestedValue (.obj params) tagName)
    (jsOr (getNestedValue (.obj blockData) tagName) (.str ""))
  if !truthy tv0 && hasDot tagName then
    let parts := splitOnCharS '.' tagName
    let blockName := parts.headD ""
    let path := joinWithS "." parts.tail
    match lookupStr bnm (lowerS blockName) with
    | some blockId =>
        if blockId ≠ "" then getNestedValue (recordGet blockData blockId) path else tv0
    | none => tv0
  else tv0

/-- The generated identifier for a tag reference. -/
def tagSafeName (nm : String) : String := "__tag_" ++ sanitizeIdent nm

/-- `v === ''` (strict equality against the empty string). -/
def isEmptyStr : JSValue → Bool
  | .str s => s == ""
  | _ => false

/-- The substitution-and-binding condition (source line 173):
`tagValue !== undefined && tagValue !== ''`. -/
def tagSubstitutes (v : JSValue) : Bool :=
  !(isUndef v) && !(isEmptyStr v)

/-- The text replacement a tag match performs, if any. -/
def tagReplFor (params blockData : List (String × JSValue))
    (bnm : List (String × String)) (m : String) : Option String :=
  if tagSubstitutes (tagResolvedValue params blockData bnm (tagNameOf m)) then
    some (tagSafeName (tagNameOf m))
  else none

/-- The context assignment a tag match performs, if any. -/
def tagBindingFor (params blockData : List (String × JSValue))
    (bnm : List (String × String)) (m : String) : Option (String × JSValue) :=
  let v := tagResolvedValue params blockData bnm (tagNameOf m)
  if tagSubstitutes v then some (tagSafeName (tagNameOf m), v) else none

/-- Source `resolveTagVariables` (lines 146–181). -/
def resolveTagVariables (code : String) (params blockData : List (String × JSValue))
    (bnm : List (String × String)) (ctx : Ctx) : String × Ctx :=
  (scanTagRefs code).foldl
    (fun acc m =>
      let tagName := tagNameOf m
      let tagValue := tagResolvedValue params blockData bnm tagName
      if tagSubstitutes tagValue then
        let safe := tagSafeName tagName
        (replaceAllS acc.1 m safe, ctxSet acc.2 safe tagValue)
      else acc)
    (code, ctx)

/-- Source `resolveCodeVariables` (lines 186–208): the three passes in order,
threading the same `contextVariables` record. -/
def resolveCodeVariables (code : String) (params : List (String × JSValue))
    (envVars : List (String × String)) (blockData : List (String × JSValue))
    (bnm : List (String × String)) (wv : List (String × WorkflowVariable)) :
    String × Ctx :=
  let r1 := resolveWorkflowVariables code wv emptyCtx
  let r2 := resolveEnvironmentVariables r1.1 params envVars r1.2
  resolveTagVariables r2.1 params blockData bnm r2.2

/-! ### Languages, import detection and the policy gate -/

/-- Modelled from the spec: the languages module (`CodeLanguage`,
`DEFAULT_CODE_LANGUAGE`, `isValidCodeLanguage`) is imported by the executor
but is not part of the given sources; per spec §3/§6 the language enumeration
is JavaScript and Python with JavaScript the default. -/
def DEFAULT_CODE_LANGUAGE : String := "javascript"

def isValidCodeLanguage (s : String) : Bool := s == "javascript" || s == "python"

/-- Modelled from the spec: the execution-constants module is not part of the
given sources; the default timeout is a platform constant whose value the
modelled behaviour never depends on (spec §6). -/
def DEFAULT_EXECUTION_TIMEOUT_MS : Nat := 30000

/-- `/^import\s+/m`: does `import` followed by whitespace start a line?
(`^` in multiline mode matches at the start and after a line terminator.) -/
def startsImportHere (cs : List Char) : Bool :=
  match cs with
  | 'i' :: 'm' :: 'p' :: 'o' :: 'r' :: 't' :: c :: _ => isJsSpace c
  | _ => false

def hasImportAux : List Char → Bool → Bool
  | [], _ => false
  | c :: rest, atLineStart =>
      (atLineStart && startsImportHere (c :: rest)) ||
        hasImportAux rest (c = '\n' || c = '\x0d')

def hasImportStmt (s : String) : Bool := hasImportAux s.data true

/-- `/require\s*\(\s*['"`]/`: a `require(` call whose first argument starts
with a quote character. -/
def requireArgStart (cs : List Char) : Bool :=
  match cs.dropWhile isJsSpace with
  | '(' :: rest =>
      match rest.dropWhile isJsSpace with
      | q :: _ => q = Char.ofNat 39 || q = Char.ofNat 34 || q = Char.ofNat 96
      | [] => false
  | _ => false

def matchRequireHere (cs : List Char) : Bool :=
  match cs with
  | 'r' :: 'e' :: 'q' :: 'u' :: 'i' :: 'r' :: 'e' :: rest => requireArgStart rest
  | _ => false

def hasRequireAux : List Char → Bool
  | [] => false
  | c :: rest => matchRequireHere (c :: rest) || hasRequireAux rest

def hasRequireCall (s : String) : Bool := hasRequireAux s.data

/-- The delegation signal (source lines 297 and 428). -/
def USE_HTTP_ROUTE : String := "__USE_HTTP_ROUTE__"

/-- Source line 281–283. -/
def pythonRequiresE2BMsg : String :=
  "Python execution requires E2B to be enabled. Please contact your administrator to enable E2B, or use JavaScript instead."

/-- Source line 288–290. -/
def importsRequireE2BMsg : String :=
  "JavaScript code with import statements requires E2B to be enabled. Please remove the import statements, or contact your administrator to enable E2B."

/-- The three sequential checks of source lines 280–298, as the message each
one throws (`none` = proceed to local execution). -/
def policyGate (e2bEnabled : Bool) (lang : String) (hasImports isCustomTool : Bool) :
    Option String :=
  if lang == "python" && !e2bEnabled then some pythonRequiresE2BMsg
  else if (lang == "javascript") && hasImports && !e2bEnabled then some importsRequireE2BMsg
  else if e2bEnabled && !isCustomTool && ((lang == "python") || hasImports) then
    some USE_HTTP_ROUTE
  else none

/-! ### The script runner

Modelled from the spec: the JavaScript engine behind `vm.Script` /
`runInContext` is outside the repository.  Per spec §4.4 the runner compiles
the rewritten code and executes it, returning the user code's final value;
the modelled language fragment is the one the spec's examples exercise
(ints, single-quoted strings, `+`, `return`, `console.log(...)` and
`throw new Error('...')`).  The console shim and the wrapper's catch block
are translated from source lines 301–320 and 377–386. -/

inductive Expr where
  | lit (v : JSValue) : Expr
  | add (a b : Expr) : Expr

/-- JavaScript `+`: string concatenation when either side is a string,
numeric addition otherwise. -/
def jsAdd (a b : JSValue) : JSValue :=
  match a, b with
  | .str s, b => .str (s ++ jsToString b)
  | a, .str t => .str (jsToString a ++ t)
  | a, b =>
      match jsToNumber a, jsToNumber b with
      | .num x, .num y => .num (x + y)
      | _, _ => .nan

def evalExpr : Expr → JSValue
  | .lit v => v
  | .add a b => jsAdd (evalExpr a) (evalExpr b)

inductive Stmt where
  | ret (e : Expr) : Stmt
  | logCall (args : List Expr) : Stmt
  | throwErr (msg : String) : Stmt

-- A computable structural size, used as stringification fuel.
mutual

def jsSize : JSValue → Nat
  | .obj fields => 1 + jsSizeFields fields
  | .arr xs => 1 + jsSizeElems xs
  | _ => 1

def jsSizeFields : List (String × JSValue) → Nat
  | [] => 0
  | p :: rest => 1 + jsSize p.2 + jsSizeFields rest

def jsSizeElems : List JSValue → Nat
  | [] => 0
  | v :: rest => 1 + jsSize v + jsSizeElems rest

end

/-- Formatting of one `console.log` argument (source lines 304–306):
objects via `JSON.stringify(arg, null, 2)`, everything else via `String`. -/
def consoleFormatArg (v : JSValue) : String :=
  if typeofIsObject v then jsonStringifyFuel (jsSize v + 1) 0 v else jsToString v

/-- One `console.log(...)` line appended to the stdout buffer. -/
def consoleLogLine (args : List JSValue) : String :=
  joinWithS " " (args.map consoleFormatArg) ++ "\n"

inductive UserResult where
  | retv (v : JSValue) : UserResult
  | thrown (msg : String) : UserResult

/-- Run the user statements: stdout produced so far plus the final result.
Reaching the end of the async wrapper without `return` yields `undefined`. -/
def runUser : List Stmt → String × UserResult
  | [] => ("", .retv .undef)
  | .ret e :: _ => ("", .retv (evalExpr e))
  | .logCall args :: rest =>
      let line := consoleLogLine (args.map evalExpr)
      let r := runUser rest
      (line ++ r.1, r.2)
  | .throwErr msg :: _ => ("", .thrown msg)

/-! ### Compilation of the wrapped script

Modelled from the spec: `new Script(...)` parses the rewritten user code;
`compile` recognizes the statement fragment above and reports a syntax
error otherwise. -/

def skipWsL (cs : List Char) : List Char := cs.dropWhile isJsSpace

def parseIntLit (cs : List Char) : Option (Expr × List Char) :=
  let ds := cs.takeWhile Char.isDigit
  if ds = [] then none
  else some (.lit (.num (digitsToNat ds : Int)), cs.dropWhile Char.isDigit)

def quoteChar : Char := Char.ofNat 39

def parseStrLit (cs : List Char) : Option (Expr × List Char) :=
  match cs with
  | q :: rest =>
      if q = quoteChar then
        let body := rest.takeWhile (fun c => !(c = quoteChar))
        match rest.dropWhile (fun c => !(c = quoteChar)) with
        | _ :: after => some (.lit (.str (String.mk body)), after)
        | [] => none
      else none
  | [] => none

def parseAtom (cs : List Char) : Option (Expr × List Char) :=
  let cs := skipWsL cs
  match parseIntLit cs with
  | some r => some r
  | none => parseStrLit cs

def parseAddChain : Nat → Expr → List Char → (Expr × List Char)
  | 0, acc, cs => (acc, cs)
  | fuel + 1, acc, cs =>
      match skipWsL cs with
      | '+' :: rest =>
          match parseAtom rest with
          | some (e, after) => parseAddChain fuel (.add acc e) after
          | none => (acc, cs)
      | _ => (acc, cs)

def parseExpr (cs : List Char) : Option (Expr × List Char) :=
  match parseAtom cs with
  | some (e, after) => some (parseAddChain after.length e after)
  | none => none

def parseArgs : Nat → List Char → Option (List Expr × List Char)
  | 0, _ => none
  | fuel + 1, cs =>
      match skipWsL cs with
      | ')' :: after => some ([], after)
      | cs' =>
          match parseExpr cs' with
          | none => none
          | some (e, after) =>
              match skipWsL after with
              | ',' :: rest =>
                  match parseArgs fuel rest with
                  | some (es, after2) => some (e :: es, after2)
                  | none => none
              | ')' :: rest => some ([e], rest)
              | _ => none

def expectSemi (cs : List Char) : Option (List Char) :=
  match skipWsL cs with
  | ';' :: after => some after
  | _ => none

def parseStmt (cs0 : List Char) : Option (Stmt × List Char) :=
  let cs := skipWsL cs0
  match dropPreL "return".data cs with
  | some rest =>
      match rest with
      | c :: _ =>
          if isJsSpace c then
            match parseExpr rest with
            | some (e, after) => (expectSemi after).map (fun a => (Stmt.ret e, a))
            | none => none
          else none
      | [] => none
  | none =>
  match dropPreL "console.log".data cs with
  | some rest =>
      (match skipWsL rest with
       | '(' :: rest2 =>
           match parseArgs (rest2.length + 1) rest2 with
           | some (es, after) => (expectSemi after).map (fun a => (Stmt.logCall es, a))
           | none => none
       | _ => none)
  | none =>
  match dropPreL "throw".data cs with
  | some rest1 =>
      (match rest1 with
       | c :: _ =>
           if isJsSpace c then
             match dropPreL "new".data (skipWsL rest1) with
             | some rest2 =>
                 (match dropPreL "Error".data (skipWsL rest2) with
                  | some rest3 =>
                      (match skipWsL rest3 with
                       | '(' :: rest4 =>
                           match parseStrLit (skipWsL rest4) with
                           | some (.lit (.str msg), after) =>
                               (match skipWsL after with
                                | ')' :: after2 =>
                                    (expectSemi after2).map (fun a => (Stmt.throwErr msg, a))
                                | _ => none)
                           | _ => none
                       | _ => none)
                  | none => none)
             | none => none
           else none
       | [] => none)
  | none => none

def parseStmts : Nat → List Char → Option (List Stmt)
  | 0, _ => none
  | fuel + 1, cs =>
      match skipWsL cs with
      | [] => some []
      | cs' =>
          match parseStmt cs' with
          | none => none
          | some (st, after) =>
              match parseStmts fuel after with
              | some sts => some (st :: sts)
              | none => none

/-- The syntax-error message of the modelled compiler. -/
def syntaxErrorMsg : String := "SyntaxError: unsupported or invalid syntax"

/-- Compilation of the rewritten code (`new Script(fullScript, ...)`). -/
def compile (code : String) : Except String (List Stmt) :=
  match parseStmts (code.data.length + 1) code.data with
  | some sts => .ok sts
  | none => .error syntaxErrorMsg

/-! ### The execution pipeline (`executeFunction`, source lines 224–448) -/

/-- The input record (source lines 13–24) with the destructuring defaults of
source lines 232–243. -/
structure FunctionExecutionInput where
  code : String
  params : List (String × JSValue) := []
  timeout : Nat := DEFAULT_EXECUTION_TIMEOUT_MS
  language : String := DEFAULT_CODE_LANGUAGE
  envVars : List (String × String) := []
  blockData : List (String × JSValue) := []
  blockNameMapping : List (String × String) := []
  workflowVariables : List (String × WorkflowVariable) := []
  isCustomTool : Bool := false

/-- The output envelope (source lines 29–37).  Wall-clock timing is outside
the embedding; `executionTime` is reported as zero. -/
structure FunctionExecutionOutputData where
  result : JSValue
  stdout : String
  executionTime : Nat

structure FunctionExecutionOutput where
  success : Bool
  output : FunctionExecutionOutputData
  error : Option String

/-- Source `cleanStdout` (lines 213–218): remove exactly one trailing
newline when present. -/
def cleanStdout (s : String) : String :=
  if s.data.getLast? = some '\n' then String.mk s.data.dropLast else s

/-- `const executionParams = { ...params }; executionParams._context =
undefined` (source lines 245–246). -/
def executionParamsOf (params : List (String × JSValue)) : List (String × JSValue) :=
  recordSet params "_context" ( .undef)

/-- The code after variable resolution (source lines 257–266). -/
def codeResolutionOf (input : FunctionExecutionInput) : String × Ctx :=
  resolveCodeVariables input.code (executionParamsOf input.params) input.envVars
    input.blockData input.blockNameMapping input.workflowVariables

/-- `isValidCodeLanguage(language) ? language : DEFAULT_CODE_LANGUAGE`. -/
def normLang (language : String) : String :=
  if isValidCodeLanguage language then language else DEFAULT_CODE_LANGUAGE

/-- What the `try` block produces: a value plus captured stdout, or a thrown
error message plus the stdout captured up to the throw. -/
inductive InnerResult where
  | ok (result : JSValue) (stdout : String) : InnerResult
  | thrown (msg : String) (stdout : String) : InnerResult

/-- Local execution (source lines 300–423): compile the rewritten code and
run it; when the user code throws, the wrapper's catch block first logs the
error through the console shim — `JSON.stringify` of an `Error` prints
`\x7b\x7d` — and then rethrows. -/
def localExec (resolvedCode : String) : InnerResult :=
  match compile resolvedCode with
  | .error m => .thrown m ""
  | .ok prog =>
      match runUser prog with
      | (out, .retv v) => .ok v out
      | (out, .thrown msg) => .thrown msg (out ++ "[ERROR] \x7b\x7d\n")

/-- The body of the `try` block: resolution, then the policy gate, then
local execution. -/
def runInner (e2bEnabled : Bool) (input : FunctionExecutionInput) : InnerResult :=
  let resolvedCode := (codeResolutionOf input).1
  let lang := normLang input.language
  let hasImports := (lang == "javascript") &&
    (hasImportStmt resolvedCode || hasRequireCall resolvedCode)
  match policyGate e2bEnabled lang hasImports input.isCustomTool with
  | some msg => .thrown msg ""
  | none => localExec resolvedCode

/-- Source `executeFunction`: the outer catch rethrows exactly the delegation
signal and converts every other thrown error into the failure envelope,
keeping the stdout captured so far.  `e2bEnabled` is `isTruthy(env.E2B_ENABLED)`,
an environment flag outside the request. -/
def executeFunction (e2bEnabled : Bool) (input : FunctionExecutionInput) :
    Except String FunctionExecutionOutput :=
  match runInner e2bEnabled input with
  | .ok v out =>
      .ok { success := true
            output := { result := v, stdout := cleanStdout out, executionTime := 0 }
            error := none }
  | .thrown msg out =>
      if msg = USE_HTTP_ROUTE then .error msg
      else
        .ok { success := false
              output := { result := .null, stdout := cleanStdout out, executionTime := 0 }
              error := some (if msg = "" then "Function execution failed" else msg) }

/-! ### Helper views used by the statements below -/

/-- The context effect of one processed match, given the write it performs. -/
def ctxApply (w : String → Option (String × JSValue)) (c : Ctx) (m : String) : Ctx :=
  match w m with
  | some kv => ctxSet c kv.1 kv.2
  | none => c

/-- The text effect of one processed match, given the replacement it performs
(`none` = the match leaves the text untouched). -/
def textApply (ro : String → Option String) (t m : String) : String :=
  match ro m with
  | some r => replaceAllS t m r
  | none => t

/-- `t` occurs (as a contiguous substring) inside `s`. -/
def occursL (t s : List Char) : Prop := ∃ u v, s = u ++ t ++ v

/-- The claim's reading of the workflow-variable type coercion
(second definition, following the spec's words: `string`→unchanged,
`number`→numeric coercion, `boolean`→equality with `"true"`/`true`,
`json`→parsed from string with the original kept on failure — with no
special case for `undefined`/`null` stored values). -/
def specCoerceByType (ty : String) (v : JSValue) : JSValue :=
  if ty == "string" then v
  else if ty == "number" then jsToNumber v
  else if ty == "boolean" then .bool (jsIsTrueLiteral v)
  else if ty == "json" then
    match v with
    | .str s => (jsonParse s).getD (.str s)
    | v => v
  else v

/-- The claim's reading of the template-reference lookup (second definition,
following the spec's words: the name is looked up first in `envVars`, then in
`params`, and defaults to the empty string only when absent from both). -/
def specEnvLookup (envVars : List (String × String)) (params : List (String × JSValue))
    (nm : String) : JSValue :=
  match lookupStr envVars nm with
  | some s => .str s
  | none =>
      match params.find? (fun p => p.1 == nm) with
      | some p => p.2
      | none => .str ""

/-! ### Generic lemmas about the fold structure of the resolver passes -/

lemma foldlFunCongr {α γ : Type} (f g : α → γ → α) (h : ∀ a m, f a m = g a m) :
    ∀ (l : List γ) (a : α), l.foldl f a = l.foldl g a := by
  intro l
  induction l with
  | nil => intro a; rfl
  | cons m rest ih => intro a; simp only [List.foldl_cons, h]; exact ih _

lemma foldlPair {α β γ : Type} (f : α → γ → α) (g : β → γ → β) :
    ∀ (l : List γ) (a : α) (b : β),
      l.foldl (fun p m => (f p.1 m, g p.2 m)) (a, b) = (l.foldl f a, l.foldl g b) := by
  intro l
  induction l with
  | nil => intro a b; rfl
  | cons m rest ih => intro a b; simp only [List.foldl_cons]; exact ih _ _

lemma ctxSet_same (c : Ctx) (k : String) (v : JSValue) : ctxSet c k v k = some v := by
  simp [ctxSet]

lemma ctxSet_other (c : Ctx) (k k' : String) (v : JSValue) (h : k' ≠ k) :
    ctxSet c k v k' = c k' := by
  simp [ctxSet, h]

lemma ctxApply_foldl_stable (w : String → Option (String × JSValue)) (k : String) :
    ∀ (l : List String) (c : Ctx),
      (∀ m ∈ l, ∀ kv, w m = some kv → kv.1 ≠ k) →
      (l.foldl (ctxApply w) c) k = c k := by
  intro l
  induction l with
  | nil => intro c _; rfl
  | cons m rest ih =>
      intro c h
      simp only [List.foldl_cons]
      rw [ih _ (fun m' hm' => h m' (List.mem_cons_of_mem _ hm'))]
      unfold ctxApply
      cases hw : w m with
      | none => rfl
      | some kv => exact ctxSet_other _ _ _ _ (fun hk => h m (List.mem_cons_self _ _) kv hw hk.symm)

lemma ctxApply_foldl_write (w : String → Option (String × JSValue)) (k : String) (v : JSValue) :
    ∀ (l : List String) (c : Ctx),
      (∃ m ∈ l, ∃ kv, w m = some kv ∧ kv.1 = k) →
      (∀ m ∈ l, ∀ kv, w m = some kv → kv.1 = k → kv.2 = v) →
      (l.foldl (ctxApply w) c) k = some v := by
  intro l
  induction l with
  | nil => intro c hex _; exact absurd hex (by simp)
  | cons m rest ih =>
      intro c hex hval
      simp only [List.foldl_cons]
      by_cases hrest : ∃ m' ∈ rest, ∃ kv, w m' = some kv ∧ kv.1 = k
      · exact ih _ hrest (fun m' hm' => hval m' (List.mem_cons_of_mem _ hm'))
      · have hm : ∃ kv, w m = some kv ∧ kv.1 = k := by
          rcases hex with ⟨m', hm', kv, hw, hk⟩
          rcases List.mem_cons.mp hm' with h1 | h2
          · exact ⟨kv, h1 ▸ hw, hk⟩
          · exact absurd ⟨m', h2, kv, hw, hk⟩ hrest
        rcases hm with ⟨kv, hw, hk⟩
        have hv : kv.2 = v := hval m (List.mem_cons_self _ _) kv hw hk
        rw [ctxApply_foldl_stable w k rest _
          (fun m' hm' kv' hw' hk' => hrest ⟨m', hm', kv', hw', hk'⟩)]
        unfold ctxApply
        rw [hw]
        simp only [hk, hv]
        exact ctxSet_same _ _ _

/-! ### Scanner and replacement lemmas -/

lemma scanAux_mem {P : String → Prop} (try1 : List Char → Option (String × List Char))
    (hp : ∀ cs m after, try1 cs = some (m, after) → P m) :
    ∀ (fuel : Nat) (cs : List Char) (m : String), m ∈ scanAux try1 fuel cs → P m := by
  intro fuel
  induction fuel with
  | zero => intro cs m hm; simp [scanAux] at hm
  | succ fuel ih =>
      intro cs m hm
      cases cs with
      | nil => simp [scanAux] at hm
      | cons c rest =>
          unfold scanAux at hm
          cases htry : try1 (c :: rest) with
          | none => rw [htry] at hm; exact ih _ _ hm
          | some r =>
              obtain ⟨m0, after0⟩ := r
              rw [htry] at hm
              rcases List.mem_cons.mp hm with h1 | h2
              · exact h1 ▸ hp _ _ _ htry
              · exact ih _ _ h2

lemma tryVarRef_ne_nil (cs : List Char) (m : String) (after : List Char)
    (h : tryVarRef cs = some (m, after)) : m.data ≠ [] := by
  unfold tryVarRef at h
  split at h
  · exact absurd h (by simp)
  · split at h
    · exact absurd h (by simp)
    · injection h with h1
      have : m = String.mk ("<variable.".data ++ _) := congrArg Prod.fst h1.symm
      rw [this]
      simp
    · exact absurd h (by simp)

lemma tryEnvRef_ne_nil (cs : List Char) (m : String) (after : List Char)
    (h : tryEnvRef cs = some (m, after)) : m.data ≠ [] := by
  unfold tryEnvRef at h
  split at h
  · exact absurd h (by simp)
  · split at h
    · exact absurd h (by simp)
    · injection h with h1
      have : m = String.mk ("\x7b\x7b".data ++ _) := congrArg Prod.fst h1.symm
      rw [this]
      simp
    · exact absurd h (by simp)

lemma tryTagRef_ne_nil (cs : List Char) (m : String) (after : List Char)
    (h : tryTagRef cs = some (m, after)) : m.data ≠ [] := by
  unfold tryTagRef at h
  split at h
  · next c1 rest =>
      split at h
      · split at h
        · dsimp only at h
          split at h
          · injection h with h1
            have : m = String.mk ('<' :: _) := congrArg Prod.fst h1.symm
            rw [this]
            simp
          · exact absurd h (by simp)
        · exact absurd h (by simp)
      · exact absurd h (by simp)
  · exact absurd h (by simp)

lemma scanVarRefs_ne_nil (s : String) (m : String) (hm : m ∈ scanVarRefs s) : m.data ≠ [] :=
  scanAux_mem tryVarRef tryVarRef_ne_nil _ _ m hm

lemma scanEnvRefs_ne_nil (s : String) (m : String) (hm : m ∈ scanEnvRefs s) : m.data ≠ [] :=
  scanAux_mem tryEnvRef tryEnvRef_ne_nil _ _ m hm

lemma scanTagRefs_ne_nil (s : String) (m : String) (hm : m ∈ scanTagRefs s) : m.data ≠ [] :=
  scanAux_mem tryTagRef tryTagRef_ne_nil _ _ m hm

lemma isPreL_iff (a : List Char) : ∀ (b : List Char), isPreL a b = true ↔ ∃ r, b = a ++ r := by
  induction a with
  | nil => intro b; simp [isPreL]
  | cons x xs ih =>
      intro b
      cases b with
      | nil => simp [isPreL]
      | cons y ys =>
          simp only [isPreL, Bool.and_eq_true, beq_iff_eq, ih ys, List.cons_append]
          constructor
          · rintro ⟨rfl, r, rfl⟩; exact ⟨r, rfl⟩
          · rintro ⟨r, h⟩
            injection h with h1 h2
            exact ⟨h1.symm, r, h2⟩

lemma consHead_ne_nil (c : Char) (l : List (List Char)) : consHead c l ≠ [] := by
  cases l <;> simp [consHead]

lemma splitFuel_ne_nil (t0 : Char) (ts : List Char) (fuel : Nat) (cs : List Char) :
    splitFuel t0 ts fuel cs ≠ [] := by
  cases fuel with
  | zero => cases cs <;> simp [splitFuel]
  | succ n =>
      cases cs with
      | nil => simp [splitFuel]
      | cons c rest =>
          unfold splitFuel
          split
          · simp
          · exact consHead_ne_nil _ _

lemma joinWithL_consHead (sep : List Char) (c : Char) (l : List (List Char)) (h : l ≠ []) :
    joinWithL sep (consHead c l) = c :: joinWithL sep l := by
  cases l with
  | nil => exact absurd rfl h
  | cons p ps =>
      cases ps with
      | nil => simp [consHead, joinWithL]
      | cons q qs => simp [consHead, joinWithL]

lemma joinWithL_cons_of_ne_nil (sep : List Char) (p : List Char) (l : List (List Char))
    (h : l ≠ []) : joinWithL sep (p :: l) = p ++ sep ++ joinWithL sep l := by
  cases l with
  | nil => exact absurd rfl h
  | cons q qs => rfl

lemma replaceFuel_eq_join (t0 : Char) (ts r : List Char) :
    ∀ (fuel : Nat) (cs : List Char),
      replaceFuel t0 ts r fuel cs = joinWithL r (splitFuel t0 ts fuel cs) := by
  intro fuel
  induction fuel with
  | zero => intro cs; cases cs <;> simp [replaceFuel, splitFuel, joinWithL]
  | succ n ih =>
      intro cs
      cases cs with
      | nil => simp [replaceFuel, splitFuel, joinWithL]
      | cons c rest =>
          unfold replaceFuel splitFuel
          split
          · rw [joinWithL_cons_of_ne_nil _ _ _ (splitFuel_ne_nil _ _ _ _)]
            rw [ih]
            simp
          · rw [joinWithL_consHead _ _ _ (splitFuel_ne_nil _ _ _ _)]
            rw [ih]

lemma joinWithL_splitFuel (t0 : Char) (ts : List Char) :
    ∀ (fuel : Nat) (cs : List Char), cs.length ≤ fuel →
      joinWithL (t0 :: ts) (splitFuel t0 ts fuel cs) = cs := by
  intro fuel
  induction fuel with
  | zero =>
      intro cs hlen
      have : cs = [] := List.length_eq_zero.mp (Nat.le_zero.mp hlen)
      subst this
      simp [splitFuel, joinWithL]
  | succ n ih =>
      intro cs hlen
      cases cs with
      | nil => simp [splitFuel, joinWithL]
      | cons c rest =>
          unfold splitFuel
          split
          · next hpre =>
              rcases (isPreL_iff _ _).mp hpre with ⟨tail, heq⟩
              have hrest : rest = ts ++ tail := by
                simpa using congrArg List.tail heq
              have hdrop : rest.drop ts.length = tail := by
                rw [hrest, List.drop_left]
              rw [joinWithL_cons_of_ne_nil _ _ _ (splitFuel_ne_nil _ _ _ _)]
              rw [hdrop, ih tail
                (by
                  have : rest.length = ts.length + tail.length := by
                    rw [hrest, List.length_append]
                  simp only [List.length_cons] at hlen
                  omega)]
              simpa using heq.symm
          · rw [joinWithL_consHead _ _ _ (splitFuel_ne_nil _ _ _ _)]
            rw [ih rest (by simp only [List.length_cons] at hlen; omega)]

lemma splitFuel_head_pre (t0 : Char) (ts : List Char) :
    ∀ (fuel : Nat) (cs : List Char),
      ∃ p ps, splitFuel t0 ts fuel cs = p :: ps ∧ ∃ r, cs = p ++ r := by
  intro fuel
  induction fuel with
  | zero =>
      intro cs
      cases cs with
      | nil => exact ⟨[], [], by simp [splitFuel], [], rfl⟩
      | cons c rest => exact ⟨c :: rest, [], by simp [splitFuel], [], by simp⟩
  | succ n ih =>
      intro cs
      cases cs with
      | nil => exact ⟨[], [], by simp [splitFuel], [], rfl⟩
      | cons c rest =>
          unfold splitFuel
          split
          · exact ⟨[], _, rfl, c :: rest, rfl⟩
          · rcases ih rest with ⟨p, ps, hsplit, r, hr⟩
            refine ⟨c :: p, ps, ?_, r, by rw [hr]; rfl⟩
            rw [hsplit]
            rfl

lemma occursL_nil (t : List Char) (ht : t ≠ []) : ¬ occursL t [] := by
  rintro ⟨u, v, h⟩
  rcases List.append_eq_nil.mp ((List.append_eq_nil.mp h.symm).1) with ⟨_, h2⟩
  exact ht h2

lemma occursL_cons (t : List Char) (c : Char) (p : List Char) (h : occursL t (c :: p)) :
    (∃ r, c :: p = t ++ r) ∨ occursL t p := by
  rcases h with ⟨u, v, huv⟩
  cases u with
  | nil => exact Or.inl ⟨v, by simpa using huv⟩
  | cons x xs =>
      right
      injection huv with h1 h2
      exact ⟨xs, v, h2⟩

lemma splitFuel_no_occurs (t0 : Char) (ts : List Char) :
    ∀ (fuel : Nat) (cs : List Char), cs.length ≤ fuel →
      ∀ p ∈ splitFuel t0 ts fuel cs, ¬ occursL (t0 :: ts) p := by
  intro fuel
  induction fuel with
  | zero =>
      intro cs hlen p hp
      have : cs = [] := List.length_eq_zero.mp (Nat.le_zero.mp hlen)
      subst this
      simp only [splitFuel, List.mem_singleton] at hp
      exact hp ▸ occursL_nil _ (by simp)
  | succ n ih =>
      intro cs hlen p hp
      cases cs with
      | nil =>
          simp only [splitFuel, List.mem_singleton] at hp
          exact hp ▸ occursL_nil _ (by simp)
      | cons c rest =>
          unfold splitFuel at hp
          split at hp
          · rcases List.mem_cons.mp hp with h1 | h2
            · exact h1 ▸ occursL_nil _ (by simp)
            · exact ih _
                (by
                  simp only [List.length_cons] at hlen
                  simp only [List.length_drop]
                  omega) p h2
          · next hnpre =>
              rcases splitFuel_head_pre t0 ts n rest with ⟨q, qs, hsplit, r, hr⟩
              rw [hsplit] at hp
              simp only [consHead] at hp
              rcases List.mem_cons.mp hp with h1 | h2
              · subst h1
                intro hocc
                rcases occursL_cons _ _ _ hocc with ⟨w, hw⟩ | hq
                · apply hnpre
                  rw [isPreL_iff]
                  refine ⟨w ++ r, ?_⟩
                  rw [hr]
                  rw [show (c :: (q ++ r) : List Char) = (c :: q) ++ r from rfl, hw]
                  simp
                · exact ih rest
                    (by simp only [List.length_cons] at hlen; omega) q
                    (by rw [hsplit]; exact List.mem_cons_self _ _) hq
              · exact ih rest
                  (by simp only [List.length_cons] at hlen; omega) p
                  (by rw [hsplit]; exact List.mem_cons_of_mem _ h2)

lemma replaceAllS_eq_join (s t r : String) (ht : t.data ≠ []) :
    replaceAllS s t r = joinWithS r (splitFullS t s) := by
  unfold replaceAllS splitFullS joinWithS
  cases hd : t.data with
  | nil => exact absurd hd ht
  | cons t0 tss =>
      simp only [List.map_map]
      rw [replaceFuel_eq_join]
      congr 1
      have : (String.data ∘ String.mk) = id := by
        funext l
        rfl
      rw [this, List.map_id]

lemma joinWithS_splitFullS (t s : String) (ht : t.data ≠ []) :
    joinWithS t (splitFullS t s) = s := by
  unfold splitFullS joinWithS
  cases hd : t.data with
  | nil => exact absurd hd ht
  | cons t0 tss =>
      simp only [List.map_map]
      have : (String.data ∘ String.mk) = id := by
        funext l
        rfl
      rw [this, List.map_id]
      have h2 := joinWithL_splitFuel t0 tss s.data.length s.data (Nat.le_refl _)
      rw [h2]

lemma splitFullS_no_occurs (t s : String) (ht : t.data ≠ []) :
    ∀ p ∈ splitFullS t s, ¬ occursL t.data p.data := by
  intro p hp
  unfold splitFullS at hp
  cases hd : t.data with
  | nil => exact absurd hd ht
  | cons t0 tss =>
      rw [hd] at hp
      rcases List.mem_map.mp hp with ⟨l, hl, rfl⟩
      have := splitFuel_no_occurs t0 tss s.data.length s.data (Nat.le_refl _) l hl
      simpa using this

/-! ### Normal forms of the three resolver passes -/

lemma resolveWorkflowVariables_eq (code : String) (wv : List (String × WorkflowVariable))
    (c0 : Ctx) :
    resolveWorkflowVariables code wv c0 =
      ((scanVarRefs code).foldl (textApply (fun m => some (varReplFor wv m))) code,
       (scanVarRefs code).foldl (ctxApply (varBindingFor wv)) c0) := by
  unfold resolveWorkflowVariables
  rw [foldlFunCongr _
    (fun (p : String × Ctx) m =>
      (textApply (fun m' => some (varReplFor wv m')) p.1 m,
       ctxApply (varBindingFor wv) p.2 m))
    (by
      intro acc m
      unfold textApply ctxApply varReplFor varBindingFor
      cases h : wvFind wv (varRefName m) <;> simp [h])]
  exact foldlPair _ _ _ _ _

lemma resolveEnvironmentVariables_eq (code : String) (params : List (String × JSValue))
    (envVars : List (String × String)) (c0 : Ctx) :
    resolveEnvironmentVariables code params envVars c0 =
      ((scanEnvRefs code).foldl
         (textApply (fun m => some (envSafeName (envRefName m)))) code,
       (scanEnvRefs code).foldl
         (ctxApply (fun m => some (envSafeName (envRefName m),
            envValueFor envVars params (envRefName m)))) c0) := by
  unfold resolveEnvironmentVariables
  rw [foldlFunCongr _
    (fun (p : String × Ctx) m =>
      (textApply (fun m' => some (envSafeName (envRefName m'))) p.1 m,
       ctxApply (fun m' => some (envSafeName (envRefName m'),
         envValueFor envVars params (envRefName m'))) p.2 m))
    (by intro acc m; rfl)]
  exact foldlPair _ _ _ _ _

lemma resolveTagVariables_eq (code : String) (params blockData : List (String × JSValue))
    (bnm : List (String × String)) (c0 : Ctx) :
    resolveTagVariables code params blockData bnm c0 =
      ((scanTagRefs code).foldl (textApply (tagReplFor params blockData bnm)) code,
       (scanTagRefs code).foldl (ctxApply (tagBindingFor params blockData bnm)) c0) := by
  unfold resolveTagVariables
  rw [foldlFunCongr _
    (fun (p : String × Ctx) m =>
      (textApply (tagReplFor params blockData bnm) p.1 m,
       ctxApply (tagBindingFor params blockData bnm) p.2 m))
    (by
      intro acc m
      unfold textApply ctxApply tagReplFor tagBindingFor
      by_cases h : tagSubstitutes (tagResolvedValue params blockData bnm (tagNameOf m)) = true
      · simp [h]
      · simp [h])]
  exact foldlPair _ _ _ _ _

/-! ### Remaining small lemmas -/

lemma recordSet_recordSet (r : List (String × JSValue)) (k : String) (v w : JSValue) :
    recordSet (recordSet r k v) k w = recordSet r k w := by
  induction r with
  | nil => simp [recordSet]
  | cons p rest ih =>
      by_cases h : p.1 = k
      · simp [recordSet, h]
      · simp [recordSet, h, ih]

lemma cleanStdout_append_newline (s : String) : cleanStdout (s ++ "\n") = s := by
  unfold cleanStdout
  rw [show (s ++ "\n").data = s.data ++ ['\n'] from rfl]
  rw [List.getLast?_concat, List.dropLast_concat]
  simp

lemma mk_append_ne_nil (pre : String) (x : String) (h : pre.data ≠ []) :
    pre ++ x ≠ "" := by
  intro hc
  have : (pre ++ x).data = [] := congrArg String.data hc
  rw [show (pre ++ x).data = pre.data ++ x.data from rfl] at this
  exact h (List.append_eq_nil.mp this).1

/-! ### Claim C8 -/

/-- C8: variable resolution is the identity on reference-free code — when the
three scanners find no match, `resolveCodeVariables` returns the input code
unchanged with an empty bindings mapping; resolving already-resolved code
(no remaining reference syntax) is therefore a no-op. -/
theorem c8_resolution_identity_on_reference_free_code
    (code : String) (params : List (String × JSValue)) (envVars : List (String × String))
    (blockData : List (String × JSValue)) (bnm : List (String × String))
    (wv : List (String × WorkflowVariable))
    (h1 : scanVarRefs code = []) (h2 : scanEnvRefs code = []) (h3 : scanTagRefs code = []) :
    resolveCodeVariables code params envVars blockData bnm wv = (code, emptyCtx) := by
  unfold resolveCodeVariables
  rw [resolveWorkflowVariables_eq, h1]
  simp only [List.foldl_nil]
  rw [resolveEnvironmentVariables_eq, h2]
  simp only [List.foldl_nil]
  rw [resolveTagVariables_eq, h3]
  simp only [List.foldl_nil]

/-- C8 witness: already-resolved code (generated identifiers only, no
remaining reference syntax) resolves to itself with no bindings. -/
theorem c8_resolution_identity_witness :
    scanVarRefs "const x = __variable_a + __var_b + __tag_c; return x;" = [] ∧
    scanEnvRefs "const x = __variable_a + __var_b + __tag_c; return x;" = [] ∧
    scanTagRefs "const x = __variable_a + __var_b + __tag_c; return x;" = [] ∧
    resolveCodeVariables "const x = __variable_a + __var_b + __tag_c; return x;"
      [("p", .num 1)] [("E", "e")] [("b", .obj [])] [("n", "b")] [("w", ⟨"w", "string", .str "s"⟩)] =
      ("const x = __variable_a + __var_b + __tag_c; return x;", emptyCtx) :=
  ⟨rfl, rfl, rfl,
   c8_resolution_identity_on_reference_free_code _ _ _ _ _ _ rfl rfl rfl⟩

/-! ### Claim C10 -/

/-- C10: `executeFunction` is insensitive to the `_context` key of `params`:
it copies `params` and overwrites `_context` with `undefined` before
resolution, so a request whose `params._context` is changed to any value
yields the same resolution result (rewritten code and bindings) and the same
execution outcome.  (The caller's record itself is untouched: the embedding
copies it by construction, mirroring the source's spread copy.) -/
theorem c10_context_param_insensitivity (e2bEnabled : Bool)
    (input : FunctionExecutionInput) (v : JSValue) :
    codeResolutionOf { input with params := recordSet input.params "_context" v } =
      codeResolutionOf input ∧
    executeFunction e2bEnabled { input with params := recordSet input.params "_context" v } =
      executeFunction e2bEnabled input := by
  have hres : codeResolutionOf { input with params := recordSet input.params "_context" v } =
      codeResolutionOf input := by
    unfold codeResolutionOf executionParamsOf
    simp only [recordSet_recordSet]
  refine ⟨hres, ?_⟩
  unfold executeFunction runInner
  rw [hres]

/-! ### Claim C7 -/

/-- C7: local JavaScript execution returns the user code's final value with
the captured console output trimmed of exactly one trailing newline:
`"return 1+1;"` yields `{success: true, result: 2, stdout: ""}` and
`"console.log('hi'); return 42;"` yields `stdout = "hi"` (no trailing
newline) and `result = 42`, under the default language and timeout and
regardless of the E2B flag. -/
theorem c7_local_execution_results :
    (∀ s : String, cleanStdout (s ++ "\n") = s) ∧
    executeFunction false { code := "return 1+1;" } =
      .ok ⟨true, ⟨.num 2, "", 0⟩, none⟩ ∧
    executeFunction true { code := "return 1+1;" } =
      .ok ⟨true, ⟨.num 2, "", 0⟩, none⟩ ∧
    executeFunction false { code := "console.log('hi'); return 42;" } =
      .ok ⟨true, ⟨.num 42, "hi", 0⟩, none⟩ ∧
    executeFunction true { code := "console.log('hi'); return 42;" } =
      .ok ⟨true, ⟨.num 42, "hi", 0⟩, none⟩ :=
  ⟨cleanStdout_append_newline, rfl, rfl, rfl, rfl⟩

/-! ### Claim C3 -/

/-- C3: every throw out of resolution, the policy gate, compilation or user
code is caught at the `executeFunction` boundary: the only exceptional
control flow that escapes is the delegation signal, and every other thrown
error is converted into the `{success: false, result: null, stdout,
executionTime, error}` envelope whose `stdout` keeps everything the console
shim captured before the failure (the wrapper logs the error and rethrows,
so the user's output is a prefix of the envelope's `stdout`). -/
theorem c3_failures_become_envelopes (e2bEnabled : Bool) (input : FunctionExecutionInput) :
    (∀ msg, executeFunction e2bEnabled input = .error msg → msg = USE_HTTP_ROUTE) ∧
    (∀ msg out, runInner e2bEnabled input = .thrown msg out → msg ≠ USE_HTTP_ROUTE →
      executeFunction e2bEnabled input =
        .ok ⟨false, ⟨.null, cleanStdout out, 0⟩,
             some (if msg = "" then "Function execution failed" else msg)⟩) ∧
    (∀ prog out msg,
      compile (codeResolutionOf input).1 = .ok prog →
      runUser prog = (out, .thrown msg) →
      localExec (codeResolutionOf input).1 = .thrown msg (out ++ "[ERROR] \x7b\x7d\n")) ∧
    (∀ s : String, cleanStdout (s ++ "[ERROR] \x7b\x7d\n") = s ++ "[ERROR] \x7b\x7d") := by
  refine ⟨?_, ?_, ?_, ?_⟩
  · intro msg h
    unfold executeFunction at h
    cases hr : runInner e2bEnabled input with
    | ok v out => rw [hr] at h; exact absurd h (by simp)
    | thrown m out =>
        rw [hr] at h
        by_cases hm : m = USE_HTTP_ROUTE
        · subst hm
          dsimp only at h
          simp at h
          exact h.symm
        · simp only [if_neg hm] at h
          exact absurd h (by simp)
  · intro msg out h hne
    unfold executeFunction
    rw [h]
    simp only [if_neg hne]
  · intro prog out msg hc hr
    unfold localExec
    rw [hc]
    simp only [hr]
  · intro s
    unfold cleanStdout
    rw [show (s ++ "[ERROR] \x7b\x7d\n").data =
      (s.data ++ "[ERROR] \x7b\x7d".data) ++ ['\n'] from by
        rw [show (s ++ "[ERROR] \x7b\x7d\n").data = s.data ++ "[ERROR] \x7b\x7d\n".data from rfl]
        rw [show "[ERROR] \x7b\x7d\n".data = "[ERROR] \x7b\x7d".data ++ ['\n'] from rfl]
        rw [List.append_assoc]]
    rw [List.getLast?_concat, List.dropLast_concat]
    simp only [Option.some.injEq, reduceCtorEq, reduceIte, if_pos]
    rfl

/-- C3 witness: a user script that logs then throws produces the failure
envelope whose stdout starts with the logged output. -/
theorem c3_failures_witness :
    runInner false { code := "console.log('a'); throw new Error('boom');" } =
      .thrown "boom" "a\n[ERROR] \x7b\x7d\n" ∧
    executeFunction false { code := "console.log('a'); throw new Error('boom');" } =
      .ok ⟨false, ⟨.null, "a\n[ERROR] \x7b\x7d", 0⟩, some "boom"⟩ :=
  ⟨rfl,
   (c3_failures_become_envelopes false
      { code := "console.log('a'); throw new Error('boom');" }).2.1
     "boom" "a\n[ERROR] \x7b\x7d\n" rfl (by decide)⟩

/-! ### Claim C9 -/

/-- C9: the delegation signal is encoded solely as a thrown error whose
message is `__USE_HTTP_ROUTE__`, and the outer handler rethrows any caught
error with exactly that message — so a user script that itself throws an
error carrying this message escapes the failure envelope and propagates to
the caller indistinguishably from a genuine delegation request. -/
theorem c9_signal_collision (e2bEnabled : Bool) (input : FunctionExecutionInput) :
    (∀ out, runInner e2bEnabled input = .thrown USE_HTTP_ROUTE out →
        executeFunction e2bEnabled input = .error USE_HTTP_ROUTE) ∧
    (∀ prog out,
        compile (codeResolutionOf input).1 = .ok prog →
        runUser prog = (out, .thrown USE_HTTP_ROUTE) →
        policyGate e2bEnabled (normLang input.language)
          ((normLang input.language == "javascript") &&
            (hasImportStmt (codeResolutionOf input).1 ||
              hasRequireCall (codeResolutionOf input).1))
          input.isCustomTool = none →
        executeFunction e2bEnabled input = .error USE_HTTP_ROUTE) := by
  constructor
  · intro out h
    unfold executeFunction
    rw [h]
    simp
  · intro prog out hc hr hg
    unfold executeFunction runInner
    dsimp only
    rw [hg]
    unfold localExec
    rw [hc]
    simp only [hr]
    simp

/-- C9 witness: a user script throwing `Error('__USE_HTTP_ROUTE__')` is
propagated as the delegation signal instead of a failure envelope. -/
theorem c9_signal_collision_witness :
    compile "throw new Error('__USE_HTTP_ROUTE__');" =
      .ok [Stmt.throwErr "__USE_HTTP_ROUTE__"] ∧
    executeFunction false { code := "throw new Error('__USE_HTTP_ROUTE__');" } =
      .error USE_HTTP_ROUTE :=
  ⟨rfl,
   (c9_signal_collision false { code := "throw new Error('__USE_HTTP_ROUTE__');" }).2
     [Stmt.throwErr "__USE_HTTP_ROUTE__"] "" rfl rfl rfl⟩

/-! ### Claim C1 -/

/-- C1 counterexample: with E2B disabled, a Python request does not signal
delegation — it returns an ordinary failure envelope (and the Variable
Resolver has already run by then; the gate is not evaluated first). -/
theorem c1_counterexample :
    executeFunction false { code := "print('x')", language := "python" } =
      .ok ⟨false, ⟨.null, "", 0⟩, some pythonRequiresE2BMsg⟩ ∧
    (∀ msg, executeFunction false { code := "print('x')", language := "python" } ≠
      .error msg) := by
  refine ⟨rfl, ?_⟩
  intro msg h
  rw [show executeFunction false { code := "print('x')", language := "python" } =
    .ok ⟨false, ⟨.null, "", 0⟩, some pythonRequiresE2BMsg⟩ from rfl] at h
  exact Except.noConfusion h

/-- C1 (amended): for a Python request, variable resolution runs first and
the gate's outcome depends on the flags — with E2B enabled and
`isCustomTool = false` the delegation signal is thrown; with E2B disabled a
failure envelope carrying the Python-requires-E2B error is returned instead
of a delegation signal; and with E2B enabled and `isCustomTool = true` no
gate check fires at all: the request falls through to local execution of the
resolved code. -/
theorem c1_python_gate_amended (e2bEnabled : Bool) (input : FunctionExecutionInput)
    (hlang : normLang input.language = "python") :
    (e2bEnabled = false →
      executeFunction e2bEnabled input =
        .ok ⟨false, ⟨.null, "", 0⟩, some pythonRequiresE2BMsg⟩) ∧
    (e2bEnabled = true → input.isCustomTool = false →
      executeFunction e2bEnabled input = .error USE_HTTP_ROUTE) ∧
    (e2bEnabled = true → input.isCustomTool = true →
      runInner e2bEnabled input = localExec (codeResolutionOf input).1) := by
  refine ⟨?_, ?_, ?_⟩
  · rintro rfl
    unfold executeFunction runInner
    dsimp only
    rw [hlang]
    simp [policyGate, pythonRequiresE2BMsg, USE_HTTP_ROUTE, cleanStdout]
  · rintro rfl hcust
    unfold executeFunction runInner
    dsimp only
    rw [hlang, hcust]
    simp [policyGate, USE_HTTP_ROUTE]
  · rintro rfl hcust
    unfold runInner
    dsimp only
    rw [hlang, hcust]
    simp [policyGate]

/-- C1 witness: all three gate outcomes at concrete Python requests — the
third one proceeds to local execution, where the Python source fails to
compile as JavaScript and yields a syntax-error failure envelope. -/
theorem c1_python_gate_witness :
    executeFunction false { code := "print('x')", language := "python", isCustomTool := false } =
      .ok ⟨false, ⟨.null, "", 0⟩, some pythonRequiresE2BMsg⟩ ∧
    executeFunction true { code := "print('x')", language := "python", isCustomTool := false } =
      .error USE_HTTP_ROUTE ∧
    runInner true { code := "print('x')", language := "python", isCustomTool := true } =
      localExec (codeResolutionOf
        { code := "print('x')", language := "python", isCustomTool := true }).1 ∧
    executeFunction true { code := "print('x')", language := "python", isCustomTool := true } =
      .ok ⟨false, ⟨.null, "", 0⟩, some syntaxErrorMsg⟩ :=
  ⟨(c1_python_gate_amended false
      { code := "print('x')", language := "python", isCustomTool := false } rfl).1 rfl,
   (c1_python_gate_amended true
      { code := "print('x')", language := "python", isCustomTool := false } rfl).2.1 rfl rfl,
   (c1_python_gate_amended true
      { code := "print('x')", language := "python", isCustomTool := true } rfl).2.2 rfl rfl,
   rfl⟩

/-! ### Claim C2 -/

/-- C2 counterexample: with E2B disabled, a JavaScript request containing
an import statement does not signal delegation: a failure envelope results;
and when delegation is signalled (E2B enabled), the signal carries only the
bare `__USE_HTTP_ROUTE__` message, with no `requires-import` reason. -/
theorem c2_counterexample :
    executeFunction false { code := "import fs from 'fs';" } =
      .ok ⟨false, ⟨.null, "", 0⟩, some importsRequireE2BMsg⟩ ∧
    (∀ msg, executeFunction false { code := "import fs from 'fs';" } ≠ .error msg) ∧
    executeFunction true { code := "import fs from 'fs';" } = .error "__USE_HTTP_ROUTE__" := by
  refine ⟨rfl, ?_, rfl⟩
  intro msg h
  rw [show executeFunction false { code := "import fs from 'fs';" } =
    .ok ⟨false, ⟨.null, "", 0⟩, some importsRequireE2BMsg⟩ from rfl] at h
  exact Except.noConfusion h

/-- C2 (amended): for a JavaScript request whose resolved text matches
the import or require pattern, the gate's outcome depends on the flags — with
E2B enabled and `isCustomTool = false` the generic delegation signal (no
reason tag) is thrown and no local execution occurs; with E2B disabled a
failure envelope carrying the imports-require-E2B error is returned. -/
theorem c2_import_gate_amended (e2bEnabled : Bool) (input : FunctionExecutionInput)
    (hlang : normLang input.language = "javascript")
    (himp : (hasImportStmt (codeResolutionOf input).1 ||
             hasRequireCall (codeResolutionOf input).1) = true) :
    (e2bEnabled = false →
      executeFunction e2bEnabled input =
        .ok ⟨false, ⟨.null, "", 0⟩, some importsRequireE2BMsg⟩) ∧
    (e2bEnabled = true → input.isCustomTool = false →
      executeFunction e2bEnabled input = .error USE_HTTP_ROUTE) := by
  constructor
  · rintro rfl
    unfold executeFunction runInner
    dsimp only
    rw [hlang, himp]
    simp [policyGate, importsRequireE2BMsg, USE_HTTP_ROUTE, cleanStdout]
  · rintro rfl hcust
    unfold executeFunction runInner
    dsimp only
    rw [hlang, himp, hcust]
    simp [policyGate, USE_HTTP_ROUTE]

/-- C2 witness: both gate outcomes at the spec's concrete import request. -/
theorem c2_import_gate_witness :
    executeFunction false { code := "import fs from 'fs';" } =
      .ok ⟨false, ⟨.null, "", 0⟩, some importsRequireE2BMsg⟩ ∧
    executeFunction true { code := "import fs from 'fs';" } = .error USE_HTTP_ROUTE :=
  ⟨(c2_import_gate_amended false { code := "import fs from 'fs';" } rfl rfl).1 rfl,
   (c2_import_gate_amended true { code := "import fs from 'fs';" } rfl rfl).2 rfl rfl⟩

lemma foldlMemCongr {α γ : Type} (f g : α → γ → α) :
    ∀ (l : List γ), (∀ m ∈ l, ∀ a, f a m = g a m) → ∀ a, l.foldl f a = l.foldl g a := by
  intro l
  induction l with
  | nil => intro _ a; rfl
  | cons m rest ih =>
      intro h a
      simp only [List.foldl_cons]
      rw [h m (List.mem_cons_self _ _) a]
      exact ih (fun m' hm' => h m' (List.mem_cons_of_mem _ hm')) _

/-! ### Claim C4 -/

/-- C4 counterexample: a boolean-typed workflow variable whose stored value
is `null` is bound as `null`, unchanged — not coerced to `false` as the
claim's unconditional per-type rule prescribes (source line 85 skips
coercion for `undefined`/`null` values). -/
theorem c4_counterexample :
    (resolveWorkflowVariables "<variable.b>" [("v1", ⟨"b", "boolean", .null⟩)] emptyCtx).2
      "__variable_b" = some JSValue.null ∧
    specCoerceByType "boolean" JSValue.null = .bool false ∧
    JSValue.null ≠ JSValue.bool false :=
  ⟨rfl, rfl, fun h => JSValue.noConfusion h⟩

/-- C4 (amended): every workflow-variable reference whose name matches a
declared variable is replaced everywhere by the one generated identifier
`__variable_` + sanitized name, bound to the value coerced by its declared
type — `string` unchanged, `number` via numeric coercion, `boolean` true iff
the value is the string `"true"` or boolean `true`, `json` parsed from a
string with the original kept on failure — except that a stored
`undefined`/`null` value is bound unchanged without coercion; unmatched
references are deleted (replaced with the empty string) without error. -/
theorem c4_workflow_variables_amended
    (code : String) (wv : List (String × WorkflowVariable)) (c0 : Ctx) (m : String)
    (hm : m ∈ scanVarRefs code) :
    (∀ entry, wvFind wv (varRefName m) = some entry →
      (∀ m' ∈ scanVarRefs code,
          varSafeName (varRefName m') = varSafeName (varRefName m) →
          varBindingFor wv m' = varBindingFor wv m) →
      (resolveWorkflowVariables code wv c0).2 (varSafeName (varRefName m)) =
        some (coerceVariableValue entry.2.type entry.2.value)) ∧
    (∀ v, v ≠ JSValue.undef → v ≠ JSValue.null → coerceVariableValue "string" v = v) ∧
    (∀ v, v ≠ JSValue.undef → v ≠ JSValue.null →
      coerceVariableValue "number" v = jsToNumber v) ∧
    (∀ v, v ≠ JSValue.undef → v ≠ JSValue.null →
      coerceVariableValue "boolean" v = .bool (jsIsTrueLiteral v)) ∧
    (∀ s, coerceVariableValue "json" (.str s) = (jsonParse s).getD (.str s)) ∧
    (coerceVariableValue "number" .undef = .undef ∧
     coerceVariableValue "boolean" .null = .null) ∧
    (varSafeName (varRefName m) = "__variable_" ++ sanitizeIdent (varRefName m)) ∧
    (∀ entry, wvFind wv (varRefName m) = some entry →
      varReplFor wv m = varSafeName (varRefName m)) ∧
    (wvFind wv (varRefName m) = none → varReplFor wv m = "") ∧
    ((resolveWorkflowVariables code wv c0).1 =
      (scanVarRefs code).foldl
        (fun t m' => joinWithS (varReplFor wv m') (splitFullS m' t)) code) ∧
    (∀ s : String, joinWithS m (splitFullS m s) = s) ∧
    (∀ s : String, ∀ p ∈ splitFullS m s, ¬ occursL m.data p.data) := by
  refine ⟨?_, ?_, ?_, ?_, fun s => rfl, ⟨rfl, rfl⟩, rfl, ?_, ?_, ?_, ?_, ?_⟩
  · intro entry hentry hcoll
    rw [resolveWorkflowVariables_eq]
    apply ctxApply_foldl_write
    · refine ⟨m, hm, (varSafeName (varRefName m),
        coerceVariableValue entry.2.type entry.2.value), ?_, rfl⟩
      unfold varBindingFor
      rw [hentry]
    · intro m' hm' kv hw hk
      have hkey : kv.1 = varSafeName (varRefName m') := by
        clear hcoll hentry hk hm
        unfold varBindingFor at hw
        cases h' : wvFind wv (varRefName m') with
        | none => rw [h'] at hw; exact Option.noConfusion hw
        | some e' =>
            rw [h'] at hw
            injection hw with hw1
            rw [← hw1]
      have hnames : varSafeName (varRefName m') = varSafeName (varRefName m) := by
        rw [← hkey, hk]
      rw [hcoll m' hm' hnames] at hw
      have hw2 : varBindingFor wv m = some (varSafeName (varRefName m),
          coerceVariableValue entry.2.type entry.2.value) := by
        clear hcoll hk hm hw hkey hnames
        unfold varBindingFor
        rw [hentry]
      rw [hw2] at hw
      injection hw with hw1
      rw [← hw1]
  · intro v hu hn
    cases v <;> first | rfl | exact absurd rfl hu | exact absurd rfl hn
  · intro v hu hn
    cases v <;> first | rfl | exact absurd rfl hu | exact absurd rfl hn
  · intro v hu hn
    cases v <;> first | rfl | exact absurd rfl hu | exact absurd rfl hn
  · intro entry hentry
    unfold varReplFor
    rw [hentry]
  · intro hnone
    unfold varReplFor
    rw [hnone]
  · rw [resolveWorkflowVariables_eq]
    refine foldlMemCongr _ _ _ ?_ _
    intro m' hm' t
    unfold textApply
    exact replaceAllS_eq_join t m' (varReplFor wv m') (scanVarRefs_ne_nil _ _ hm')
  · intro s
    exact joinWithS_splitFullS m s (scanVarRefs_ne_nil _ _ hm)
  · intro s
    exact splitFullS_no_occurs m s (scanVarRefs_ne_nil _ _ hm)

/-- C4 witness. -/
theorem c4_workflow_variables_witness :
    "<variable.count>" ∈ scanVarRefs "<variable.count> + <variable.missing>" ∧
    (resolveWorkflowVariables "<variable.count> + <variable.missing>"
        [("id1", ⟨"count", "number", .str "5"⟩)] emptyCtx).2 "__variable_count" =
      some (.num 5) ∧
    (resolveWorkflowVariables "<variable.count> + <variable.missing>"
        [("id1", ⟨"count", "number", .str "5"⟩)] emptyCtx).1 = "__variable_count + " := by
  have hm : "<variable.count>" ∈ scanVarRefs "<variable.count> + <variable.missing>" := by
    rw [show scanVarRefs "<variable.count> + <variable.missing>" =
      ["<variable.count>", "<variable.missing>"] from rfl]
    exact List.mem_cons_self _ _
  refine ⟨hm, ?_, rfl⟩
  have h := (c4_workflow_variables_amended "<variable.count> + <variable.missing>"
    [("id1", ⟨"count", "number", .str "5"⟩)] emptyCtx "<variable.count>" hm).1
    ("id1", ⟨"count", "number", .str "5"⟩) rfl
    (by
      intro m' hm' hname
      rw [show scanVarRefs "<variable.count> + <variable.missing>" =
        ["<variable.count>", "<variable.missing>"] from rfl] at hm'
      rcases List.mem_cons.mp hm' with rfl | hm2
      · rfl
      · rcases List.mem_cons.mp hm2 with rfl | hm3
        · exact absurd hname (by decide)
        · exact absurd hm3 (List.not_mem_nil _))
  exact h

/-! ### Claim C5 -/

/-- C5 counterexample: the template-reference lookup is truthiness-based, not
membership-based.  With `envVars = {FOO: ""}` and `params = {FOO: "x"}`, the
claim's lookup order (envVars first) prescribes the binding `""`, but the
code's `envVars[n] || params[n] || ''` skips the falsy `envVars` entry and
binds `"x"`. -/
theorem c5_counterexample :
    (resolveEnvironmentVariables "\x7b\x7bFOO\x7d\x7d" [("FOO", .str "x")] [("FOO", "")]
        emptyCtx).2 "__var_FOO" = some (.str "x") ∧
    specEnvLookup [("FOO", "")] [("FOO", .str "x")] "FOO" = .str "" ∧
    JSValue.str "x" ≠ JSValue.str "" := by
  refine ⟨rfl, rfl, ?_⟩
  intro h
  injection h with h1
  exact absurd h1 (by decide)

/-- C5 (amended): every template reference always produces a binding (prefix
`__var_` + sanitized name) and is substituted everywhere, never deleted; the
bound value is `envVars[NAME] || params[NAME] || ''` — the `envVars` entry
when truthy, else the `params` entry when truthy, else the empty string; in
particular `\x7b\x7bFOO\x7d\x7d` with `envVars = {FOO: "bar"}` and no
`params.FOO` binds exactly `"bar"`. -/
theorem c5_template_references_amended
    (code : String) (params : List (String × JSValue)) (envVars : List (String × String))
    (c0 : Ctx) (m : String)
    (hm : m ∈ scanEnvRefs code)
    (hcoll : ∀ m' ∈ scanEnvRefs code,
        envSafeName (envRefName m') = envSafeName (envRefName m) →
        envValueFor envVars params (envRefName m') = envValueFor envVars params (envRefName m)) :
    ((resolveEnvironmentVariables code params envVars c0).2 (envSafeName (envRefName m)) =
      some (envValueFor envVars params (envRefName m))) ∧
    (envValueFor envVars params (envRefName m) =
      jsOr (match lookupStr envVars (envRefName m) with
            | some s => .str s
            | none => .undef)
        (jsOr (recordGet params (envRefName m)) (.str ""))) ∧
    (envSafeName (envRefName m) = "__var_" ++ sanitizeIdent (envRefName m)) ∧
    (envSafeName (envRefName m) ≠ "") ∧
    ((resolveEnvironmentVariables code params envVars c0).1 =
      (scanEnvRefs code).foldl
        (fun t m' => joinWithS (envSafeName (envRefName m')) (splitFullS m' t)) code) ∧
    (∀ s : String, joinWithS m (splitFullS m s) = s) ∧
    (∀ s : String, ∀ p ∈ splitFullS m s, ¬ occursL m.data p.data) ∧
    ((resolveEnvironmentVariables "\x7b\x7bFOO\x7d\x7d" [] [("FOO", "bar")] emptyCtx).2
      "__var_FOO" = some (.str "bar")) := by
  refine ⟨?_, rfl, rfl, ?_, ?_, ?_, ?_, rfl⟩
  · rw [resolveEnvironmentVariables_eq]
    apply ctxApply_foldl_write
    · exact ⟨m, hm, (envSafeName (envRefName m),
        envValueFor envVars params (envRefName m)), rfl, rfl⟩
    · intro m' hm' kv hw hk
      injection hw with hw1
      rw [← hw1] at hk ⊢
      rw [hcoll m' hm' hk]
  · exact mk_append_ne_nil "__var_" _ (by simp)
  · rw [resolveEnvironmentVariables_eq]
    refine foldlMemCongr _ _ _ ?_ _
    intro m' hm' t
    unfold textApply
    exact replaceAllS_eq_join t m' (envSafeName (envRefName m')) (scanEnvRefs_ne_nil _ _ hm')
  · intro s
    exact joinWithS_splitFullS m s (scanEnvRefs_ne_nil _ _ hm)
  · intro s
    exact splitFullS_no_occurs m s (scanEnvRefs_ne_nil _ _ hm)

/-- C5 witness. -/
theorem c5_template_references_witness :
    "\x7b\x7bFOO\x7d\x7d" ∈ scanEnvRefs "return \x7b\x7bFOO\x7d\x7d;" ∧
    (resolveEnvironmentVariables "return \x7b\x7bFOO\x7d\x7d;" [] [("FOO", "bar")]
        emptyCtx).2 "__var_FOO" = some (.str "bar") ∧
    (resolveEnvironmentVariables "return \x7b\x7bFOO\x7d\x7d;" [] [("FOO", "bar")]
        emptyCtx).1 = "return __var_FOO;" := by
  have hm : "\x7b\x7bFOO\x7d\x7d" ∈ scanEnvRefs "return \x7b\x7bFOO\x7d\x7d;" := by
    rw [show scanEnvRefs "return \x7b\x7bFOO\x7d\x7d;" = ["\x7b\x7bFOO\x7d\x7d"] from rfl]
    exact List.mem_cons_self _ _
  refine ⟨hm, ?_, rfl⟩
  exact (c5_template_references_amended "return \x7b\x7bFOO\x7d\x7d;" [] [("FOO", "bar")]
    emptyCtx "\x7b\x7bFOO\x7d\x7d" hm (fun m' hm' _ => by
      rw [show scanEnvRefs "return \x7b\x7bFOO\x7d\x7d;" = ["\x7b\x7bFOO\x7d\x7d"] from rfl] at hm'
      rcases List.mem_cons.mp hm' with rfl | hm2
      · rfl
      · exact absurd hm2 (List.not_mem_nil _))).1

/-! ### Claim C6 -/

lemma tagSubstitutes_of_ne (v : JSValue) (h1 : v ≠ .undef) (h2 : v ≠ .str "") :
    tagSubstitutes v = true := by
  cases v with
  | undef => exact absurd rfl h1
  | str s =>
      have : s ≠ "" := fun hs => h2 (by rw [hs])
      simp [tagSubstitutes, isUndef, isEmptyStr, this]
  | _ => rfl

/-- C6: a tag reference whose direct dotted-path lookups against `params` and
`blockData` find nothing, and whose first segment maps case-insensitively
through `blockNameMapping` to a (nonempty) block id, resolves to exactly the
nested value at the remaining path inside `blockData[id]`; when that value is
neither `undefined` nor the empty string it is substituted with an identifier
bound to it, and references resolving to empty/undefined are left in the text
unchanged and produce no binding. -/
theorem c6_tag_block_resolution
    (code : String) (params blockData : List (String × JSValue))
    (bnm : List (String × String)) (c0 : Ctx) (m : String) (blockId : String) (v : JSValue)
    (hm : m ∈ scanTagRefs code)
    (hdir1 : getNestedValue (.obj params) (tagNameOf m) = .undef)
    (hdir2 : getNestedValue (.obj blockData) (tagNameOf m) = .undef)
    (hdot : hasDot (tagNameOf m) = true)
    (hmap : lookupStr bnm (lowerS ((splitOnCharS '.' (tagNameOf m)).headD "")) = some blockId)
    (hbid : blockId ≠ "")
    (hv : getNestedValue (recordGet blockData blockId)
        (joinWithS "." (splitOnCharS '.' (tagNameOf m)).tail) = v)
    (hv1 : v ≠ JSValue.undef) (hv2 : v ≠ JSValue.str "")
    (hcoll : ∀ m' ∈ scanTagRefs code,
        tagSafeName (tagNameOf m') = tagSafeName (tagNameOf m) →
        tagResolvedValue params blockData bnm (tagNameOf m') =
          tagResolvedValue params blockData bnm (tagNameOf m)) :
    (tagResolvedValue params blockData bnm (tagNameOf m) = v) ∧
    ((resolveTagVariables code params blockData bnm c0).2 (tagSafeName (tagNameOf m)) =
      some v) ∧
    (tagSafeName (tagNameOf m) = "__tag_" ++ sanitizeIdent (tagNameOf m)) ∧
    ((resolveTagVariables code params blockData bnm c0).1 =
      (scanTagRefs code).foldl (textApply (tagReplFor params blockData bnm)) code) ∧
    (∀ m' : String,
      (tagResolvedValue params blockData bnm (tagNameOf m') = JSValue.undef ∨
       tagResolvedValue params blockData bnm (tagNameOf m') = JSValue.str "") →
      tagBindingFor params blockData bnm m' = none ∧
      (∀ t, textApply (tagReplFor params blockData bnm) t m' = t)) ∧
    (∀ s : String, joinWithS m (splitFullS m s) = s) ∧
    (∀ s : String, ∀ p ∈ splitFullS m s, ¬ occursL m.data p.data) := by
  have hres : tagResolvedValue params blockData bnm (tagNameOf m) = v := by
    unfold tagResolvedValue
    rw [hdir1, hdir2]
    dsimp only
    rw [hmap]
    simp [jsOr, truthy, hdot, hbid, hv]
  have hsub : tagSubstitutes (tagResolvedValue params blockData bnm (tagNameOf m)) = true := by
    rw [hres]
    exact tagSubstitutes_of_ne v hv1 hv2
  refine ⟨hres, ?_, rfl, ?_, ?_, ?_, ?_⟩
  · rw [resolveTagVariables_eq]
    apply ctxApply_foldl_write
    · refine ⟨m, hm, (tagSafeName (tagNameOf m), v), ?_, rfl⟩
      unfold tagBindingFor
      dsimp only
      rw [hres]
      rw [if_pos (tagSubstitutes_of_ne v hv1 hv2)]
    · intro m' hm' kv hw hk
      clear hm hdir1 hdir2 hdot hmap hbid hv hsub
      unfold tagBindingFor at hw
      dsimp only at hw
      cases hs : tagSubstitutes (tagResolvedValue params blockData bnm (tagNameOf m')) with
      | true =>
          rw [hs, if_pos rfl] at hw
          injection hw with hw1
          rw [← hw1] at hk ⊢
          dsimp only at hk ⊢
          rw [hcoll m' hm' hk, hres]
      | false =>
          rw [hs] at hw
          simp only [Bool.false_eq_true, if_false] at hw
          exact Option.noConfusion hw
  · clear hm hdir1 hdir2 hdot hmap hbid hv hv1 hv2 hcoll hres hsub
    rw [resolveTagVariables_eq]
  · intro m' hw
    clear hm hdir1 hdir2 hdot hmap hbid hv hv1 hv2 hcoll hres hsub
    have hns : tagSubstitutes (tagResolvedValue params blockData bnm (tagNameOf m')) = false := by
      rcases hw with h | h <;> rw [h] <;> rfl
    constructor
    · unfold tagBindingFor
      dsimp only
      rw [hns]
      simp only [Bool.false_eq_true, if_false]
    · intro t
      unfold textApply tagReplFor
      rw [hns]
      simp only [Bool.false_eq_true, if_false]
  · intro s
    exact joinWithS_splitFullS m s (scanTagRefs_ne_nil _ _ hm)
  · intro s
    exact splitFullS_no_occurs m s (scanTagRefs_ne_nil _ _ hm)

/-- C6 witness: a concrete block-name-mapped tag reference is substituted and
bound to the nested value. -/
theorem c6_tag_block_resolution_witness :
    "<myblock.data.x>" ∈ scanTagRefs "return <myblock.data.x>;" ∧
    (resolveTagVariables "return <myblock.data.x>;" []
        [("b1", .obj [("data", .obj [("x", .num 7)])])] [("myblock", "b1")] emptyCtx).2
      "__tag_myblock_data_x" = some (.num 7) ∧
    (resolveTagVariables "return <myblock.data.x>;" []
        [("b1", .obj [("data", .obj [("x", .num 7)])])] [("myblock", "b1")] emptyCtx).1 =
      "return __tag_myblock_data_x;" := by
  have hm : "<myblock.data.x>" ∈ scanTagRefs "return <myblock.data.x>;" := by
    rw [show scanTagRefs "return <myblock.data.x>;" = ["<myblock.data.x>"] from rfl]
    exact List.mem_cons_self _ _
  refine ⟨hm, ?_, rfl⟩
  exact (c6_tag_block_resolution "return <myblock.data.x>;" []
    [("b1", .obj [("data", .obj [("x", .num 7)])])] [("myblock", "b1")] emptyCtx
    "<myblock.data.x>" "b1" (.num 7) hm rfl rfl rfl rfl (by decide) rfl
    (fun h => JSValue.noConfusion h) (fun h => JSValue.noConfusion h)
    (fun m' hm' _ => by
      rw [show scanTagRefs "return <myblock.data.x>;" = ["<myblock.data.x>"] from rfl] at hm'
      rcases List.mem_cons.mp hm' with rfl | hm2
      · rfl
      · exact absurd hm2 (List.not_mem_nil _))).2.1
